import Mathlib

/-!
# Verification of the Ethereum address generator pipeline

This development shallowly embeds the key-derivation, address-derivation and
transaction-signing pipeline of `src/main.js` and settles the specification
claims about it.

The repository's own code is a thin layer over cryptographic libraries
(`js-sha3`, `bip39`, `ethereumjs-wallet`, `@ethereumjs/tx`).  Functions that
live in `src/main.js` (`deriveEthAddress`, `generateSeed`, `generatePrivKey`,
`derivePubKey`, `signLegacyTx`, `signEIP1559Tx`, `getSignerAddress`) are
translated directly from the source.  The library primitives they call are not
part of the repository, so they are modelled from the specification, as
documented on each definition:

* Keccak-256 is implemented in full (sponge over Keccak-f[1600], rate 136,
  original 0x01 padding, as used by `js-sha3.keccak256`);
* SHA-512 / HMAC-SHA512 / PBKDF2 are implemented in full for the seed
  stretch and hierarchical key derivation;
* the secp256k1 group is modelled by its scalar group: the curve group
  generated by the base point `G` is cyclic of order `secpN`, and every point
  the pipeline touches is a known scalar multiple of `G`, so points are
  represented by their discrete logarithm in `ZMod secpN`.  The x-coordinate
  projection is modelled by the canonical representative of the pair
  `P, -P` together with a recovery bit selecting the sign, which is exactly
  the structure ECDSA public-key recovery relies on.

Machine integers are `Nat` with explicit `% 2 ^ 64` where overflow matters;
bytes are `Nat` values below 256; fallible operations return `Except`.
-/

/-! ## Bytes and hexadecimal rendering -/

/-- Lowercase hexadecimal digit alphabet, as used by `js-sha3`'s `HEX_CHARS`:
digits 0–9 followed by letters a–f. -/
def hexDigitChars : List Char :=
  (List.range 16).map (fun n => if n < 10 then Char.ofNat (48 + n) else Char.ofNat (87 + n))

/-- Two lowercase hex characters of one byte, high nibble first
(`HEX_CHARS[(b >> 4) & 0x0F]`, `HEX_CHARS[b & 0x0F]` in `js-sha3`). -/
def hexByte (b : Nat) : List Char :=
  [hexDigitChars.getD (b / 16 % 16) '0', hexDigitChars.getD (b % 16) '0']

/-- Lowercase hexadecimal rendering of a byte string. -/
def bytesToHexChars (bs : List Nat) : List Char :=
  bs.flatMap hexByte

/-- Big-endian byte serialization of a natural number into `len` bytes. -/
def natToBytesBE (len n : Nat) : List Nat :=
  (List.range len).map (fun i => n >>> (8 * (len - 1 - i)) % 256)

/-! ## Keccak-256

`deriveEthAddress` in `src/main.js` delegates hashing to `js-sha3.keccak256`,
which is library code outside the repository.  Modelled from the spec
("computes Keccak-256 over the 64-byte uncompressed public key … the 32-byte
digest", §4.4): the full Keccak-f[1600] sponge with rate 136 bytes, the
original Keccak 0x01 multi-rate padding and a 32-byte digest rendered as
lowercase hex, which is what `js-sha3.keccak256` computes.  Lanes are 64-bit
words represented as `Nat` reduced `% 2 ^ 64`. -/

/-- Left rotation of a 64-bit lane. -/
def rotl64 (x k : Nat) : Nat :=
  ((x <<< (k % 64)) ||| (x >>> (64 - k % 64))) % (2 ^ 64)

/-- Bitwise complement within a 64-bit lane. -/
def not64 (x : Nat) : Nat := x ^^^ (2 ^ 64 - 1)

/-- Iterate a function `k` times. -/
def iterN (f : Nat → Nat) : Nat → Nat → Nat
  | 0, x => x
  | k + 1, x => iterN f k (f x)

/-- One step of the degree-8 LFSR (polynomial x^8 + x^6 + x^5 + x^4 + 1)
generating the Keccak round-constant bits. -/
def rcStep (r : Nat) : Nat :=
  let r2 := r <<< 1
  if r2 &&& 0x100 ≠ 0 then (r2 ^^^ 0x171) &&& 0xFF else r2 &&& 0xFF

/-- Bit `rc(t)` of the Keccak round-constant LFSR. -/
def rcBit (t : Nat) : Nat := iterN rcStep t 1 &&& 1

/-- Round constant of round `i` of Keccak-f[1600]. -/
def keccakRC (i : Nat) : Nat :=
  (List.range 7).foldl (fun acc j => acc ||| (rcBit (7 * i + j) <<< (2 ^ j - 1))) 0

/-- Rotation offsets of the ρ step, generated by the standard traversal
starting at lane (1,0) with offset (t+1)(t+2)/2. -/
def rhoOffsets : List Nat :=
  (((List.range 24).foldl
      (fun st t =>
        let arr := st.1
        let x := st.2.1
        let y := st.2.2
        (arr.set (x + 5 * y) ((t + 1) * (t + 2) / 2 % 64), y, (2 * x + 3 * y) % 5))
      (List.replicate 25 0, 1, 0)) : List Nat × Nat × Nat).1

/-- Lane `i` of a 25-lane state (lane (x,y) is at index x + 5y). -/
def lane (st : List Nat) (i : Nat) : Nat := st.getD i 0

/-- The θ step of Keccak-f. -/
def keccakTheta (a : List Nat) : List Nat :=
  let c := fun x =>
    lane a x ^^^ lane a (x + 5) ^^^ lane a (x + 10) ^^^ lane a (x + 15) ^^^ lane a (x + 20)
  let d := fun x => c ((x + 4) % 5) ^^^ rotl64 (c ((x + 1) % 5)) 1
  List.ofFn (fun i : Fin 25 => lane a i.val ^^^ d (i.val % 5))

/-- The combined ρ and π steps of Keccak-f. -/
def keccakRhoPi (a : List Nat) : List Nat :=
  (List.range 25).foldl
    (fun b i =>
      let x := i % 5
      let y := i / 5
      b.set ((2 * x + 3 * y) % 5 * 5 + y) (rotl64 (lane a i) (rhoOffsets.getD i 0)))
    (List.replicate 25 0)

/-- The χ step of Keccak-f. -/
def keccakChi (b : List Nat) : List Nat :=
  List.ofFn (fun i : Fin 25 =>
    let x := i.val % 5
    let y := i.val / 5
    lane b i.val ^^^ (not64 (lane b ((x + 1) % 5 + 5 * y)) &&& lane b ((x + 2) % 5 + 5 * y)))

/-- The ι step of Keccak-f. -/
def keccakIota (round : Nat) (a : List Nat) : List Nat :=
  a.set 0 (lane a 0 ^^^ keccakRC round)

/-- The Keccak-f[1600] permutation: 24 rounds of θ, ρ, π, χ, ι. -/
def keccakF (st : List Nat) : List Nat :=
  (List.range 24).foldl (fun s r => keccakIota r (keccakChi (keccakRhoPi (keccakTheta s)))) st

/-- Little-endian 64-bit lane `i` of one 136-byte rate block. -/
def laneOfBlock (block : List Nat) (i : Nat) : Nat :=
  (List.range 8).foldl (fun acc j => acc ||| (block.getD (8 * i + j) 0 <<< (8 * j))) 0

/-- Absorb one rate block into the state (XOR into the first 17 lanes). -/
def xorBlock (st block : List Nat) : List Nat :=
  List.ofFn (fun i : Fin 25 =>
    if i.val < 17 then lane st i.val ^^^ laneOfBlock block i.val else lane st i.val)

/-- Original Keccak multi-rate padding with domain byte 0x01 (js-sha3's
`keccak256`, not the SHA-3 0x06 variant). -/
def keccakPad (msg : List Nat) : List Nat :=
  let padLen := 136 - msg.length % 136
  if padLen = 1 then msg ++ [0x81]
  else msg ++ [0x01] ++ List.replicate (padLen - 2) 0 ++ [0x80]

/-- Keccak-256 digest (32 bytes) of a byte string. -/
def keccak256 (msg : List Nat) : List Nat :=
  let padded := keccakPad msg
  let blocks := (List.range (padded.length / 136)).map (fun i => (padded.drop (136 * i)).take 136)
  let st := blocks.foldl (fun s b => keccakF (xorBlock s b)) (List.replicate 25 0)
  (List.range 32).map (fun i => (st.getD (i / 8) 0 >>> (8 * (i % 8))) % 256)

/-- Keccak-256 digest rendered as 64 lowercase hex characters, which is the
string value `js-sha3.keccak256` returns to `deriveEthAddress`. -/
def keccak256Hex (msg : List Nat) : List Char :=
  bytesToHexChars (keccak256 msg)

/-! ## Address derivation (`deriveEthAddress` in `src/main.js`) -/

/-- JavaScript `String.prototype.substring(a, b)` on a character list:
clamped to the string bounds, with swapped arguments reordered.  Natural
subtraction at call sites reproduces JavaScript's clamping of negative
starts to 0. -/
def jsSubstring (s : List Char) (a b : Nat) : List Char :=
  if a ≤ b then (s.take b).drop a else (s.take a).drop b

/-- Translated from `src/main.js` lines 29–33:
`deriveEthAddress(pubKey)` hex-hashes the argument with `keccak256` and
returns `"0x" + address.substring(address.length - 40, address.length)`. -/
def deriveEthAddress (pubKey : List Nat) : String :=
  let address := keccak256Hex pubKey
  "0x" ++ String.mk (jsSubstring address (address.length - 40) address.length)

/-! ### Supporting lemmas -/

theorem keccak256_length (msg : List Nat) : (keccak256 msg).length = 32 := by
  simp [keccak256]

theorem keccak256_bytes_lt (msg : List Nat) : ∀ b ∈ keccak256 msg, b < 256 := by
  intro b hb
  simp only [keccak256, List.mem_map, List.mem_range] at hb
  obtain ⟨i, -, rfl⟩ := hb
  exact Nat.mod_lt _ (by norm_num)

theorem bytesToHexChars_append (a b : List Nat) :
    bytesToHexChars (a ++ b) = bytesToHexChars a ++ bytesToHexChars b := by
  simp [bytesToHexChars]

theorem bytesToHexChars_length (bs : List Nat) :
    (bytesToHexChars bs).length = 2 * bs.length := by
  induction bs with
  | nil => rfl
  | cons b t ih =>
    simp only [bytesToHexChars, List.flatMap_cons, List.length_append, List.length_cons] at *
    simp [hexByte, ih]
    omega

theorem hexDigitChars_getD_mem (n : Nat) : hexDigitChars.getD n '0' ∈ hexDigitChars := by
  by_cases h : n < hexDigitChars.length
  · rw [List.getD_eq_getElem hexDigitChars '0' h]
    exact List.getElem_mem h
  · rw [List.getD_eq_default hexDigitChars '0' (Nat.le_of_not_lt h)]
    decide

theorem bytesToHexChars_mem (bs : List Nat) :
    ∀ c ∈ bytesToHexChars bs, c ∈ hexDigitChars := by
  intro c hc
  simp only [bytesToHexChars, List.mem_flatMap, hexByte, List.mem_cons] at hc
  obtain ⟨b, -, hc⟩ := hc
  rcases hc with h | h | h
  · exact h ▸ hexDigitChars_getD_mem _
  · exact h ▸ hexDigitChars_getD_mem _
  · cases h

theorem keccak256Hex_length (msg : List Nat) : (keccak256Hex msg).length = 64 := by
  rw [keccak256Hex, bytesToHexChars_length, keccak256_length]

theorem string_mk_append (a b : List Char) :
    String.mk a ++ String.mk b = String.mk (a ++ b) := rfl

/-- Core shape of `deriveEthAddress`: for every input, the result is `"0x"`
followed by the last 40 of the 64 hex characters of the Keccak-256 digest. -/
theorem jsSubstring_last40 (l : List Char) (h : l.length = 64) :
    jsSubstring l (l.length - 40) l.length = l.drop 24 := by
  unfold jsSubstring
  rw [if_pos (Nat.sub_le _ _), List.take_length, h]

theorem deriveEthAddress_eq (pk : List Nat) :
    deriveEthAddress pk = String.mk ('0' :: 'x' :: (keccak256Hex pk).drop 24) := by
  show "0x" ++ String.mk (jsSubstring (keccak256Hex pk)
      ((keccak256Hex pk).length - 40) (keccak256Hex pk).length) = _
  rw [jsSubstring_last40 _ (keccak256Hex_length pk)]
  show String.mk ['0', 'x'] ++ _ = _
  rw [string_mk_append]
  rfl

/-- The last 40 hex characters of the digest are exactly the rendering of the
last 20 digest bytes. -/
theorem keccak256Hex_drop (msg : List Nat) :
    (keccak256Hex msg).drop 24 = bytesToHexChars ((keccak256 msg).drop 12) := by
  have hsplit : keccak256 msg = (keccak256 msg).take 12 ++ (keccak256 msg).drop 12 :=
    (List.take_append_drop 12 (keccak256 msg)).symm
  have htake : ((keccak256 msg).take 12).length = 12 := by
    simp [List.length_take, keccak256_length]
  calc (keccak256Hex msg).drop 24
      = (bytesToHexChars ((keccak256 msg).take 12 ++ (keccak256 msg).drop 12)).drop 24 := by
        rw [keccak256Hex, ← hsplit]
    _ = (bytesToHexChars ((keccak256 msg).take 12) ++
          bytesToHexChars ((keccak256 msg).drop 12)).drop 24 := by
        rw [bytesToHexChars_append]
    _ = bytesToHexChars ((keccak256 msg).drop 12) := by
        rw [List.drop_append_of_le_length (by rw [bytesToHexChars_length, htake])]
        rw [List.drop_eq_nil_of_le (by rw [bytesToHexChars_length, htake]), List.nil_append]

/-- C2: for every 64-byte public key, `deriveEthAddress` returns the
Keccak-256 digest's last 20 bytes rendered as lowercase hexadecimal prefixed
with `"0x"`, a 42-character string drawn from the lowercase hex alphabet after
the prefix.  The function is a total Lean function of its argument, so it is
pure and deterministic with no failure path. -/
theorem C2_deriveEthAddress_spec (pk : List Nat) (_hlen : pk.length = 64) :
    deriveEthAddress pk = "0x" ++ String.mk (bytesToHexChars ((keccak256 pk).drop 12)) ∧
    (deriveEthAddress pk).length = 42 ∧
    ∀ c ∈ ((deriveEthAddress pk).data.drop 2), c ∈ hexDigitChars := by
  refine ⟨?_, ?_, ?_⟩
  · rw [deriveEthAddress_eq, ← keccak256Hex_drop]
    rfl
  · rw [deriveEthAddress_eq]
    show ('0' :: 'x' :: (keccak256Hex pk).drop 24).length = 42
    simp [keccak256Hex_length]
  · intro c hc
    rw [deriveEthAddress_eq] at hc
    have : (String.mk ('0' :: 'x' :: (keccak256Hex pk).drop 24)).data.drop 2
        = (keccak256Hex pk).drop 24 := rfl
    rw [this, keccak256Hex_drop] at hc
    exact bytesToHexChars_mem _ c hc

/-- Witness for C2 at the 64-byte all-zero public key. -/
theorem C2_deriveEthAddress_spec_witness :
    (List.replicate 64 0).length = 64 ∧
    ((deriveEthAddress (List.replicate 64 0)).length = 42) := by
  refine ⟨by simp, ?_⟩
  exact (C2_deriveEthAddress_spec (List.replicate 64 0) (by simp)).2.1

/-- C9: `deriveEthAddress` performs no validation and is total over arbitrary
byte-string inputs: for every input, of any length (including the empty
string), the result is `"0x"` followed by the last 40 hex characters of the
Keccak-256 digest of the input, and the digest always has 64 hex characters.
Totality (no failure branch) holds by construction: the embedding is a total
Lean function, matching the source, which has no conditional or throw. -/
theorem C9_deriveEthAddress_total : ∀ pk : List Nat,
    deriveEthAddress pk = "0x" ++ String.mk ((keccak256Hex pk).drop 24) ∧
    (keccak256Hex pk).length = 64 := by
  intro pk
  exact ⟨deriveEthAddress_eq pk, keccak256Hex_length pk⟩

/-! ## SHA-512, HMAC-SHA512 and PBKDF2

`generateSeed` in `src/main.js` delegates to `bip39.mnemonicToSeed`, library
code outside the repository.  Modelled from the spec (§4.2: "applies a
standard password-based key derivation stretch (iterated HMAC) over the
mnemonic string and a salt constructed from the passphrase, producing a fixed
64-byte output"): PBKDF2 with HMAC-SHA512, 2048 iterations and the
`"mnemonic" ++ passphrase` salt, which is what `bip39` computes.  SHA-512 is
implemented in full, its round constants and initial state computed from the
fractional parts of cube and square roots of the first primes. -/

/-- Primality by trial division (only used to generate SHA-512 constants). -/
def isPrimeByTrial (n : Nat) : Bool :=
  decide (2 ≤ n) && ((List.range n).drop 2).all (fun d => n % d ≠ 0)

/-- The first `count` primes (the 80th prime, 409, is below 512). -/
def primesList (count : Nat) : List Nat :=
  ((List.range 512).filter isPrimeByTrial).take count

/-- Fuelled binary search for the integer cube root. -/
def cbrtGo (n : Nat) : Nat → Nat → Nat → Nat
  | 0, lo, _ => lo
  | f + 1, lo, hi =>
    if lo + 1 < hi then
      let mid := (lo + hi) / 2
      if mid ^ 3 ≤ n then cbrtGo n f mid hi else cbrtGo n f lo mid
    else lo

/-- Integer cube root. -/
def natCbrt (n : Nat) : Nat := cbrtGo n 400 0 (n + 1)

/-- SHA-512 round constants: first 64 bits of the fractional parts of the
cube roots of the first 80 primes. -/
def sha512K : List Nat :=
  (primesList 80).map (fun p => natCbrt (p * 2 ^ 192) - 2 ^ 64 * natCbrt p)

/-- SHA-512 initial state: first 64 bits of the fractional parts of the
square roots of the first 8 primes. -/
def sha512H0 : List Nat :=
  (primesList 8).map (fun p => Nat.sqrt (p * 2 ^ 128) - 2 ^ 64 * Nat.sqrt p)

/-- Addition modulo 2^64. -/
def add64 (a b : Nat) : Nat := (a + b) % 2 ^ 64

/-- Right rotation of a 64-bit lane. -/
def rotr64 (x k : Nat) : Nat :=
  ((x >>> (k % 64)) ||| (x <<< (64 - k % 64))) % 2 ^ 64

/-- XOR of two rotations and one further summand, the shape shared by all
four SHA-512 mixing functions. -/
def rotMix (x a b : Nat) (tail : Nat) : Nat := rotr64 x a ^^^ (rotr64 x b ^^^ tail)

/-- SHA-512 Σ0 (rotations by 28, 34, 39). -/
def bigSigma0 (x : Nat) : Nat := rotMix x 28 34 (rotr64 x 39)

/-- SHA-512 Σ1 (rotations by 14, 18, 41). -/
def bigSigma1 (x : Nat) : Nat := rotMix x 14 18 (rotr64 x 41)

/-- SHA-512 σ0 (rotations by 1 and 8, shift by 7). -/
def smallSigma0 (x : Nat) : Nat := rotMix x 1 8 (x >>> 7)

/-- SHA-512 σ1 (rotations by 19 and 61, shift by 6). -/
def smallSigma1 (x : Nat) : Nat := rotMix x 19 61 (x >>> 6)

/-- SHA-512 choice function. -/
def chFn (x y z : Nat) : Nat := (x &&& y) ^^^ (not64 x &&& z)

/-- SHA-512 majority function. -/
def majFn (x y z : Nat) : Nat := (x &&& y) ^^^ (x &&& z) ^^^ (y &&& z)

/-- The 80-word SHA-512 message schedule of one 128-byte block
(big-endian 64-bit words). -/
def sha512Schedule (block : List Nat) : List Nat :=
  let w0 := (List.range 16).map
    (fun i => (List.range 8).foldl (fun acc j => acc * 256 + block.getD (8 * i + j) 0) 0)
  (List.range 64).foldl
    (fun w _ =>
      w ++ [add64 (add64 (smallSigma1 (w.getD (w.length - 2) 0)) (w.getD (w.length - 7) 0))
              (add64 (smallSigma0 (w.getD (w.length - 15) 0)) (w.getD (w.length - 16) 0))])
    w0

/-- The SHA-512 compression function (80 rounds plus feed-forward). -/
def sha512Compress (st block : List Nat) : List Nat :=
  let w := sha512Schedule block
  let fin := (List.range 80).foldl
    (fun v t =>
      let a := v.getD 0 0
      let b := v.getD 1 0
      let c := v.getD 2 0
      let d := v.getD 3 0
      let e := v.getD 4 0
      let f := v.getD 5 0
      let g := v.getD 6 0
      let h := v.getD 7 0
      let t1 := add64 (add64 (add64 h (bigSigma1 e)) (chFn e f g))
                  (add64 (w.getD t 0) (sha512K.getD t 0))
      let t2 := add64 (bigSigma0 a) (majFn a b c)
      [add64 t1 t2, a, b, c, add64 d t1, e, f, g])
    st
  List.ofFn (fun i : Fin 8 => add64 (st.getD i.val 0) (fin.getD i.val 0))

/-- SHA-512 padding: 0x80, zeros, and the 128-bit big-endian bit length. -/
def sha512Pad (msg : List Nat) : List Nat :=
  let zeros := (128 - (msg.length + 17) % 128) % 128
  msg ++ [0x80] ++ List.replicate zeros 0 ++ natToBytesBE 16 (8 * msg.length)

/-- SHA-512 digest (64 bytes) of a byte string. -/
def sha512 (msg : List Nat) : List Nat :=
  let padded := sha512Pad msg
  let blocks := (List.range (padded.length / 128)).map
    (fun i => (padded.drop (128 * i)).take 128)
  let st := blocks.foldl sha512Compress sha512H0
  (List.range 64).map (fun i => (st.getD (i / 8) 0 >>> (8 * (7 - i % 8))) % 256)

/-- HMAC-SHA512 with block size 128 bytes. -/
def hmacSha512 (key msg : List Nat) : List Nat :=
  let k0 := if 128 < key.length then sha512 key else key
  let k1 := k0 ++ List.replicate (128 - k0.length) 0
  sha512 ((k1.map (fun b => b ^^^ 0x5c)) ++ sha512 ((k1.map (fun b => b ^^^ 0x36)) ++ msg))

/-- Iteration tail of PBKDF2: repeatedly re-HMAC the previous block and XOR
into the accumulator. -/
def pbkdf2Go (password : List Nat) : Nat → List Nat → List Nat → List Nat
  | 0, _, acc => acc
  | k + 1, u, acc =>
    let u2 := hmacSha512 password u
    pbkdf2Go password k u2 (List.zipWith (fun a b => a ^^^ b) acc u2)

/-- One-block PBKDF2-HMAC-SHA512 (64-byte output, which is all BIP-39
needs), truncated to `dkLen` bytes. -/
def pbkdf2HmacSha512 (password salt : List Nat) (iters dkLen : Nat) : List Nat :=
  let u1 := hmacSha512 password (salt ++ natToBytesBE 4 1)
  (pbkdf2Go password (iters - 1) u1 u1).take dkLen

/-- Byte encoding of a string (UTF-8 agrees with this on the ASCII strings
the pipeline handles; the determinism and length claims do not depend on the
encoding of non-ASCII input). -/
def strBytes (s : String) : List Nat := s.data.map Char.toNat

/-- Modelled from the spec (§4.2), standing for `bip39.mnemonicToSeed`:
PBKDF2-HMAC-SHA512 over the mnemonic with salt `"mnemonic" ++ passphrase`,
2048 iterations, 64-byte output. -/
def mnemonicToSeed (mnemonic : String) (passphrase : String) : List Nat :=
  pbkdf2HmacSha512 (strBytes mnemonic) (strBytes ("mnemonic" ++ passphrase)) 2048 64

/-- Translated from `src/main.js` lines 15–17: `generateSeed(mnemonic)`
returns `BIP39.mnemonicToSeed(mnemonic)` (empty default passphrase). -/
def generateSeed (mnemonic : String) : List Nat := mnemonicToSeed mnemonic ""

/-! ### Supporting lemmas -/

theorem sha512_length (msg : List Nat) : (sha512 msg).length = 64 := by
  simp [sha512]

theorem hmacSha512_length (key msg : List Nat) : (hmacSha512 key msg).length = 64 := by
  unfold hmacSha512
  exact sha512_length _

theorem pbkdf2Go_length (password : List Nat) :
    ∀ (k : Nat) (u acc : List Nat), acc.length = 64 → (pbkdf2Go password k u acc).length = 64 := by
  intro k
  induction k with
  | zero => intro u acc h; exact h
  | succ k ih =>
    intro u acc h
    unfold pbkdf2Go
    apply ih
    rw [List.length_zipWith, h, hmacSha512_length]
    rfl

theorem mnemonicToSeed_length (m p : String) : (mnemonicToSeed m p).length = 64 := by
  unfold mnemonicToSeed pbkdf2HmacSha512
  rw [List.length_take, pbkdf2Go_length _ _ _ _ (hmacSha512_length _ _)]
  rfl

/-! ## Hierarchical deterministic key derivation

`generatePrivKey` in `src/main.js` delegates to `ethereumjs-wallet/hdkey`,
library code outside the repository.  Modelled from the spec (§4.3):
iterative child-key derivation over the seed, at each path segment combining
the parent chain code and key material through HMAC-SHA512, splitting the
output into key material and a new chain code, with hardened segments
(index ≥ 2^31) keyed on the private key and non-hardened segments keyed on
the public key, failing with `InvalidDerivationPath` when an intermediate
scalar is zero or at least the curve order. -/

/-- Order of the secp256k1 base-point group (a 256-bit prime). -/
def secpN : Nat :=
  0xFFFFFFFFFFFFFFFFFFFFFFFFFFFFFFFEBAAEDCE6AF48A03BBFD25E8CD0364141

/-- Big-endian interpretation of a byte string as a natural number. -/
def bytesToNat (bs : List Nat) : Nat := bs.foldl (fun acc b => acc * 256 + b) 0

/-- Errors of the key-derivation engine (spec §4.3/§7). -/
inductive DeriveError
  | InvalidDerivationPath
deriving DecidableEq

/-- An extended private key: scalar plus chain code. -/
structure HDNode where
  key : Nat
  chainCode : List Nat
deriving DecidableEq

/-- Modelled from the spec (§4.3): the master node obtained by splitting the
seed-keyed HMAC-SHA512 output (standard "Bitcoin seed" HMAC key) into the
master scalar and chain code. -/
def hdFromMasterSeed (seed : List Nat) : Except DeriveError HDNode :=
  let i := hmacSha512 (strBytes "Bitcoin seed") seed
  let il := bytesToNat (i.take 32)
  if il = 0 ∨ secpN ≤ il then .error .InvalidDerivationPath
  else .ok ⟨il, i.drop 32⟩

/-- Modelled compressed-point encoding of the public key of scalar `k` (in
the discrete-log point representation below, the point is the scalar). -/
def serPoint (k : Nat) : List Nat := (2 + k % 2) :: natToBytesBE 32 k

/-- Modelled from the spec (§4.3): one child-key derivation step.  Hardened
indices (≥ 2^31) key the HMAC on the private key, others on the public key;
the HMAC output splits into key material and the child chain code; the step
fails with `InvalidDerivationPath` if the intermediate scalar is ≥ the curve
order or the child key is zero. -/
def ckdPriv (node : HDNode) (idx : Nat) : Except DeriveError HDNode :=
  let seedData :=
    if 2 ^ 31 ≤ idx then 0 :: natToBytesBE 32 node.key ++ natToBytesBE 4 idx
    else serPoint node.key ++ natToBytesBE 4 idx
  let i := hmacSha512 node.chainCode seedData
  let il := bytesToNat (i.take 32)
  let childKey := (il + node.key) % secpN
  if secpN ≤ il ∨ childKey = 0 then .error .InvalidDerivationPath
  else .ok ⟨childKey, i.drop 32⟩

/-- Walk a parsed derivation path (list of child indices) from a node. -/
def hdDerive (node : HDNode) : List Nat → Except DeriveError HDNode
  | [] => .ok node
  | i :: rest => (ckdPriv node i).bind (fun n => hdDerive n rest)

/-- The wallet's 32-byte big-endian private-key serialization
(`getWallet().getPrivateKey()`). -/
def HDNode.getPrivateKey (n : HDNode) : List Nat := natToBytesBE 32 n.key

/-- Spec §4.3 `derivePrivateKey(seed, path)`: master node from the seed, then
walk the path. -/
def derivePrivateKey (seed : List Nat) (path : List Nat) : Except DeriveError (List Nat) :=
  (hdFromMasterSeed seed).bind (fun master => (hdDerive master path).map HDNode.getPrivateKey)

/-! ### Derivation-path strings -/

/-- Split a character list at every occurrence of a separator. -/
def splitOnChar (c : Char) : List Char → List (List Char)
  | [] => [[]]
  | x :: xs =>
    let rest := splitOnChar c xs
    if x = c then [] :: rest
    else (x :: rest.headD []) :: rest.tail

/-- The hardened marker of a derivation-path segment (an apostrophe). -/
def hardenedMark : Char := Char.ofNat 39

/-- Decimal digit character of `d`. -/
def digitChar (d : Nat) : Char := Char.ofNat (48 + d)

/-- Decimal rendering of a natural number (most significant digit first). -/
def digitsOf (n : Nat) : List Char :=
  if n = 0 then ['0'] else (Nat.digits 10 n).reverse.map digitChar

/-- Numeric value of a digit character. -/
def charVal (c : Char) : Nat := c.toNat - 48

/-- Parse a nonempty all-digit character list as a decimal number. -/
def parseDigits (cs : List Char) : Option Nat :=
  if cs ≠ [] ∧ cs.all Char.isDigit then
    some (cs.foldl (fun a c => 10 * a + charVal c) 0)
  else none

/-- Parse one path segment: decimal digits, optionally followed by the
hardened marker, index below 2^31, hardened indices offset by 2^31. -/
def parseSegment (cs : List Char) : Option Nat :=
  if cs.getLast? = some hardenedMark then
    (parseDigits cs.dropLast).bind (fun n => if n < 2 ^ 31 then some (n + 2 ^ 31) else none)
  else
    (parseDigits cs).bind (fun n => if n < 2 ^ 31 then some n else none)

/-- Parse a derivation path string `m/…` into its list of child indices. -/
def parsePath (s : String) : Option (List Nat) :=
  match splitOnChar '/' s.data with
  | first :: rest => if first = ['m'] then rest.mapM parseSegment else none
  | [] => none

/-- Render a list of child indices as a derivation path string. -/
def renderSegment (n : Nat) : List Char :=
  if 2 ^ 31 ≤ n then digitsOf (n - 2 ^ 31) ++ [hardenedMark] else digitsOf n

/-- Render a full derivation path string `m/…`. -/
def renderPath (segs : List Nat) : String :=
  String.mk ('m' :: segs.flatMap (fun n => '/' :: renderSegment n))

/-- The fixed derivation path hard-coded in `src/main.js` line 21
(`m/44'/60'/0'/0/0`). -/
def defaultHdPath : String :=
  String.mk ['m', '/', '4', '4', hardenedMark, '/', '6', '0', hardenedMark, '/',
             '0', hardenedMark, '/', '0', '/', '0']

/-- Translated from `src/main.js` lines 19–22: `generatePrivKey(mnemonic)`
derives the seed, builds the master node, walks the fixed default path and
serializes the resulting wallet key. -/
def generatePrivKey (mnemonic : String) : Except DeriveError (List Nat) :=
  match parsePath defaultHdPath with
  | some path => derivePrivateKey (generateSeed mnemonic) path
  | none => .error .InvalidDerivationPath

/-! ### Supporting lemmas for C4 and C7 -/

theorem natToBytesBE_length (len n : Nat) : (natToBytesBE len n).length = len := by
  simp [natToBytesBE]

theorem splitOnChar_no_sep (c : Char) (l : List Char) (h : c ∉ l) :
    splitOnChar c l = [l] := by
  induction l with
  | nil => rfl
  | cons x xs ih =>
    have hx : ¬ x = c := fun hxc => h (hxc ▸ List.mem_cons_self x xs)
    have hxs : c ∉ xs := fun hm => h (List.mem_cons_of_mem x hm)
    simp only [splitOnChar, ih hxs, if_neg hx]
    rfl

theorem splitOnChar_cons_sep (c : Char) (pre t : List Char) (h : c ∉ pre) :
    splitOnChar c (pre ++ c :: t) = pre :: splitOnChar c t := by
  induction pre with
  | nil => simp [splitOnChar]
  | cons x xs ih =>
    have hx : ¬ x = c := fun hxc => h (hxc ▸ List.mem_cons_self x xs)
    have hxs : c ∉ xs := fun hm => h (List.mem_cons_of_mem x hm)
    simp only [List.cons_append, splitOnChar, if_neg hx]
    rw [List.append_eq, ih hxs]
    rfl

theorem splitOnChar_build (c : Char) :
    ∀ (parts : List (List Char)) (pre : List Char), c ∉ pre → (∀ p ∈ parts, c ∉ p) →
      splitOnChar c (pre ++ parts.flatMap (fun p => c :: p)) = pre :: parts := by
  intro parts
  induction parts with
  | nil =>
    intro pre hpre _
    simp [splitOnChar_no_sep c pre hpre]
  | cons p ps ih =>
    intro pre hpre hparts
    have hflat : (p :: ps).flatMap (fun q => c :: q) = c :: (p ++ ps.flatMap (fun q => c :: q)) := by
      simp
    rw [hflat, splitOnChar_cons_sep c pre _ hpre]
    rw [ih p (hparts p (List.mem_cons_self p ps)) (fun q hq => hparts q (List.mem_cons_of_mem p hq))]

theorem digitChar_isDigit (d : Nat) (h : d < 10) : (digitChar d).isDigit = true := by
  interval_cases d <;> decide

theorem charVal_digitChar (d : Nat) (h : d < 10) : charVal (digitChar d) = d := by
  interval_cases d <;> decide

theorem foldl_digit_chars (l : List Nat) (h : ∀ d ∈ l, d < 10) :
    (l.reverse.map digitChar).foldl (fun a c => 10 * a + charVal c) 0 = Nat.ofDigits 10 l := by
  induction l with
  | nil => rfl
  | cons d t ih =>
    have hd : d < 10 := h d (List.mem_cons_self d t)
    have ht : ∀ x ∈ t, x < 10 := fun x hx => h x (List.mem_cons_of_mem d hx)
    rw [List.reverse_cons, List.map_append, List.foldl_append, ih ht]
    simp [charVal_digitChar d hd, Nat.ofDigits_cons]
    ring

theorem digitsOf_mem_isDigit (n : Nat) : ∀ c ∈ digitsOf n, c.isDigit = true := by
  intro c hc
  unfold digitsOf at hc
  by_cases hn : n = 0
  · rw [if_pos hn] at hc
    simp only [List.mem_singleton] at hc
    subst hc
    decide
  · rw [if_neg hn] at hc
    simp only [List.mem_map, List.mem_reverse] at hc
    obtain ⟨d, hd, rfl⟩ := hc
    exact digitChar_isDigit d (Nat.digits_lt_base (by norm_num) hd)

theorem digitsOf_ne_nil (n : Nat) : digitsOf n ≠ [] := by
  unfold digitsOf
  by_cases hn : n = 0
  · rw [if_pos hn]; simp
  · rw [if_neg hn]
    simp [Nat.digits_ne_nil_iff_ne_zero.mpr hn]

theorem parseDigits_digitsOf (n : Nat) : parseDigits (digitsOf n) = some n := by
  unfold parseDigits
  rw [if_pos ⟨digitsOf_ne_nil n, List.all_eq_true.mpr (digitsOf_mem_isDigit n)⟩]
  by_cases hn : n = 0
  · subst hn; decide
  · unfold digitsOf
    rw [if_neg hn, foldl_digit_chars _ (fun d hd => Nat.digits_lt_base (by norm_num) hd),
      Nat.ofDigits_digits]

theorem parseSegment_renderSegment (n : Nat) (h : n < 2 ^ 32) :
    parseSegment (renderSegment n) = some n := by
  by_cases hn : 2 ^ 31 ≤ n
  · rw [renderSegment, if_pos hn, parseSegment, List.getLast?_concat, if_pos rfl,
      List.dropLast_concat, parseDigits_digitsOf, Option.some_bind, if_pos (by omega)]
    congr 1
    omega
  · have hlast : (digitsOf n).getLast? ≠ some hardenedMark := by
      intro hEq
      have hne := digitsOf_ne_nil n
      rw [List.getLast?_eq_getLast _ hne, Option.some.injEq] at hEq
      have hdig := digitsOf_mem_isDigit n _ (hEq ▸ List.getLast_mem hne)
      exact absurd hdig (by decide)
    rw [renderSegment, if_neg hn, parseSegment, if_neg hlast, parseDigits_digitsOf,
      Option.some_bind, if_pos (by omega)]

theorem renderSegment_no_slash (n : Nat) : '/' ∉ renderSegment n := by
  intro hm
  unfold renderSegment at hm
  by_cases hn : 2 ^ 31 ≤ n
  · rw [if_pos hn] at hm
    rcases List.mem_append.mp hm with h1 | h1
    · exact absurd (digitsOf_mem_isDigit _ _ h1) (by decide)
    · simp only [List.mem_singleton] at h1
      exact absurd h1 (by decide)
  · rw [if_neg hn] at hm
    exact absurd (digitsOf_mem_isDigit _ _ hm) (by decide)

theorem mapM_parseSegment (segs : List Nat) (h : ∀ i ∈ segs, i < 2 ^ 32) :
    (segs.map renderSegment).mapM parseSegment = some segs := by
  induction segs with
  | nil => rfl
  | cons a t ih =>
    rw [List.map_cons, List.mapM_cons,
      parseSegment_renderSegment a (h a (List.mem_cons_self a t)),
      ih (fun i hi => h i (List.mem_cons_of_mem a hi))]
    rfl

theorem parsePath_renderPath (segs : List Nat) (h : ∀ i ∈ segs, i < 2 ^ 32) :
    parsePath (renderPath segs) = some segs := by
  have hflat : segs.flatMap (fun n => '/' :: renderSegment n)
      = (segs.map renderSegment).flatMap (fun p => '/' :: p) := by
    rw [List.flatMap_map]
  have hsplit : splitOnChar '/' ('m' :: segs.flatMap (fun n => '/' :: renderSegment n))
      = ['m'] :: segs.map renderSegment := by
    rw [hflat]
    exact splitOnChar_build '/' (segs.map renderSegment) ['m'] (by decide)
      (fun p hp => by
        obtain ⟨n, _, rfl⟩ := List.mem_map.mp hp
        exact renderSegment_no_slash n)
  show (match splitOnChar '/' ('m' :: segs.flatMap (fun n => '/' :: renderSegment n)) with
    | first :: rest => if first = ['m'] then rest.mapM parseSegment else none
    | [] => none) = some segs
  rw [hsplit]
  show (if (['m'] : List Char) = ['m'] then (segs.map renderSegment).mapM parseSegment
    else none) = some segs
  rw [if_pos rfl]
  exact mapM_parseSegment segs h

theorem hdDerive_append (node : HDNode) (a b : List Nat) :
    hdDerive node (a ++ b) = (hdDerive node a).bind (fun x => hdDerive x b) := by
  induction a generalizing node with
  | nil => cases hdDerive node b <;> rfl
  | cons i t ih =>
    show (ckdPriv node i).bind (fun n => hdDerive n (t ++ b))
        = ((ckdPriv node i).bind (fun n => hdDerive n t)).bind (fun x => hdDerive x b)
    cases ckdPriv node i with
    | error e => rfl
    | ok next =>
      show hdDerive next (t ++ b) = (hdDerive next t).bind (fun x => hdDerive x b)
      exact ih next

/-- C4: seed and private-key derivation are deterministic.  Both are total
Lean functions, so identical inputs give identical outputs by reflexivity;
the substantive facts are that the seed is always exactly 64 bytes, that
`generateSeed` is `mnemonicToSeed` at the empty default passphrase, and that
the serialized private key is always exactly 32 bytes. -/
theorem C4_seed_key_determinism (m p : String) (seed path : List Nat) (node : HDNode) :
    mnemonicToSeed m p = mnemonicToSeed m p ∧
    (mnemonicToSeed m p).length = 64 ∧
    generateSeed m = mnemonicToSeed m "" ∧
    derivePrivateKey seed path = derivePrivateKey seed path ∧
    (HDNode.getPrivateKey node).length = 32 :=
  ⟨rfl, mnemonicToSeed_length m p, rfl, rfl, natToBytesBE_length 32 node.key⟩

/-- C7: `generatePrivKey` walks the fixed path `m/44'/60'/0'/0/0` (indices
`[44+2^31, 60+2^31, 2^31, 0, 0]`), and the derivation engine supports every
valid path: every index list below 2^32 renders to a path string that parses
back to exactly those indices, and walking a concatenated path is walking its
parts in sequence. -/
theorem C7_default_path_and_generality (m : String) :
    parsePath defaultHdPath = some [2147483692, 2147483708, 2147483648, 0, 0] ∧
    generatePrivKey m =
      derivePrivateKey (generateSeed m) [2147483692, 2147483708, 2147483648, 0, 0] ∧
    (∀ segs : List Nat, (∀ i ∈ segs, i < 2 ^ 32) → parsePath (renderPath segs) = some segs) ∧
    (∀ (node : HDNode) (a b : List Nat),
      hdDerive node (a ++ b) = (hdDerive node a).bind (fun x => hdDerive x b)) := by
  have hparse : parsePath defaultHdPath = some [2147483692, 2147483708, 2147483648, 0, 0] := by
    decide
  refine ⟨hparse, ?_, parsePath_renderPath, hdDerive_append⟩
  rw [generatePrivKey, hparse]

/-- Witness for C7: a two-segment path (one hardened, one plain) renders and
parses back to itself. -/
theorem C7_default_path_and_generality_witness :
    parsePath (renderPath [2147483692, 0]) = some [2147483692, 0] :=
  (C7_default_path_and_generality "").2.2.1 [2147483692, 0] (by decide)

/-! ## The secp256k1 group and ECDSA

`signLegacyTx`, `signEIP1559Tx` and `getSignerAddress` in `src/main.js`
delegate the curve arithmetic to `@ethereumjs/tx` and `ethereumjs-wallet`,
library code outside the repository.  Modelled from the spec (§4.3, §4.5,
§4.6 and the glossary): the secp256k1 base-point group is cyclic of order
`secpN`, so the subgroup generated by the base point `G` is isomorphic to
`ZMod secpN`; every point the pipeline touches is a known scalar multiple of
`G` and is represented by its discrete logarithm, with `G` itself at `1`.
The x-coordinate projection, which identifies a point with its negation, is
modelled by the canonical representative of the pair `P, -P`; the recovery
bit selects the member of the pair, which is exactly the structure ECDSA
public-key recovery consumes. -/

instance : NeZero secpN := ⟨by decide⟩

/-- The base point `G` in discrete-log representation. -/
def basePointG : ZMod secpN := 1

/-- Half the group order, separating each pair `P, -P` into a canonical and a
non-canonical member. -/
def pointHalfOrder : Nat := (secpN - 1) / 2

/-- Modelled x-coordinate of a point: the canonical representative of the
pair `P, -P` (the real x-coordinate also identifies exactly `P` and `-P`). -/
def pointX (p : ZMod secpN) : ZMod secpN :=
  if p.val ≤ pointHalfOrder then p else -p

/-- Recovery bit of a point: which member of the pair `P, -P` it is. -/
def pointRecBit (p : ZMod secpN) : Nat :=
  if p.val ≤ pointHalfOrder then 0 else 1

/-- Reconstruct the nonce point from the signature value `r` and the
recovery bit. -/
def recoverRPoint (r : ZMod secpN) (bit : Nat) : ZMod secpN :=
  if bit = 0 then r else -r

/-- Reduce a 32-byte digest to a scalar. -/
def hashToScalar (bs : List Nat) : ZMod secpN := (bytesToNat bs : ZMod secpN)

/-- Modelled from the spec (§4.5 step 4): RFC 6979-style deterministic nonce
generation — a deterministic function of the private key and message hash
only, always yielding a usable (invertible) scalar, standing for the
hash-and-retry loop of RFC 6979. -/
def nonceFor (d z : ZMod secpN) : ZMod secpN :=
  let k0 := hashToScalar (keccak256 (natToBytesBE 32 d.val ++ natToBytesBE 32 z.val))
  if Nat.gcd k0.val secpN = 1 then k0 else 1

/-- ECDSA signature core (spec §4.5 steps 4–5): nonce `k`, nonce point
`R = k·G`, `r = x(R)`, `s = k⁻¹(z + r·d)`, plus the recovery bit of `R`. -/
def ecdsaSign (d z : ZMod secpN) : ZMod secpN × ZMod secpN × Nat :=
  let k := nonceFor d z
  let bigR := k * basePointG
  let r := pointX bigR
  (r, k⁻¹ * (z + r * d), pointRecBit bigR)

/-- ECDSA public-key recovery (spec §4.6): reconstruct `R` from `(r, bit)`
and return `r⁻¹·(s·R − z·G)`. -/
def ecdsaRecoverPub (z r s : ZMod secpN) (bit : Nat) : ZMod secpN :=
  let bigR := recoverRPoint r bit
  r⁻¹ * (s * bigR - z * basePointG)

/-- Modelled 64-byte uncompressed encoding (no format byte) of the public-key
point `p` (`wallet.getPublicKey()`). -/
def pubKeyBytes (p : ZMod secpN) : List Nat := natToBytesBE 64 p.val

/-- Translated from `src/main.js` lines 24–27: `derivePubKey(privKey)`
returns the wallet's 64-byte uncompressed public key of the private scalar,
i.e. the encoding of `privKey·G`. -/
def derivePubKey (privKey : ZMod secpN) : List Nat := pubKeyBytes (privKey * basePointG)

/-! ### ECDSA supporting lemmas -/

theorem nonceFor_isUnit (d z : ZMod secpN) : IsUnit (nonceFor d z) := by
  unfold nonceFor
  by_cases h : Nat.gcd (hashToScalar (keccak256 (natToBytesBE 32 d.val ++
      natToBytesBE 32 z.val))).val secpN = 1
  · rw [if_pos h]
    have hu := (ZMod.isUnit_iff_coprime (hashToScalar (keccak256 (natToBytesBE 32 d.val ++
      natToBytesBE 32 z.val))).val secpN).mpr h
    rwa [ZMod.natCast_rightInverse _] at hu
  · rw [if_neg h]
    exact isUnit_one

theorem recoverRPoint_pointX (k : ZMod secpN) :
    recoverRPoint (pointX k) (pointRecBit k) = k := by
  unfold recoverRPoint pointX pointRecBit
  by_cases h : k.val ≤ pointHalfOrder
  · rw [if_pos h, if_pos h, if_pos rfl]
  · rw [if_neg h, if_neg h, if_neg (by norm_num), neg_neg]

theorem pointX_isUnit (k : ZMod secpN) (h : IsUnit k) : IsUnit (pointX k) := by
  unfold pointX
  by_cases hc : k.val ≤ pointHalfOrder
  · rwa [if_pos hc]
  · rw [if_neg hc]
    exact h.neg

theorem pointRecBit_le_one (k : ZMod secpN) : pointRecBit k ≤ 1 := by
  unfold pointRecBit
  by_cases h : k.val ≤ pointHalfOrder
  · rw [if_pos h]
    exact Nat.zero_le 1
  · rw [if_neg h]

theorem ecdsaRecover_of_unit (d z k : ZMod secpN) (hk : IsUnit k) :
    ecdsaRecoverPub z (pointX k) (k⁻¹ * (z + pointX k * d)) (pointRecBit k)
      = d * basePointG := by
  have hr : IsUnit (pointX k) := pointX_isUnit k hk
  have hkk : k⁻¹ * k = 1 := ZMod.inv_mul_of_unit k hk
  have hmid : k⁻¹ * (z + pointX k * d) * k = z + pointX k * d := by
    rw [mul_comm (k⁻¹ * (z + pointX k * d)) k, ← mul_assoc, mul_comm k k⁻¹, hkk, one_mul]
  unfold ecdsaRecoverPub
  show (pointX k)⁻¹ * (k⁻¹ * (z + pointX k * d) * recoverRPoint (pointX k) (pointRecBit k)
      - z * basePointG) = d * basePointG
  rw [recoverRPoint_pointX k, show (basePointG : ZMod secpN) = 1 from rfl, mul_one, mul_one,
    hmid, add_sub_cancel_left, ← mul_assoc, ZMod.inv_mul_of_unit _ hr, one_mul]

/-- Correctness of the modelled ECDSA pair: recovering from the components
produced by `ecdsaSign` returns the signer's public-key point. -/
theorem ecdsaSign_recover (d z : ZMod secpN) :
    ecdsaRecoverPub z (ecdsaSign d z).1 (ecdsaSign d z).2.1 (ecdsaSign d z).2.2
      = d * basePointG := by
  have h := ecdsaRecover_of_unit d z (nonceFor d z) (nonceFor_isUnit d z)
  show ecdsaRecoverPub z (pointX (nonceFor d z * basePointG))
    ((nonceFor d z)⁻¹ * (z + pointX (nonceFor d z * basePointG) * d))
    (pointRecBit (nonceFor d z * basePointG)) = d * basePointG
  rw [show (basePointG : ZMod secpN) = 1 from rfl, mul_one]
  exact h

/-! ## Transactions and signing -/

/-- A transaction payload as supplied by the caller (field table of spec §3
and §6; absent fields are `none`).  The field `toAddr` embeds the payload
field `to` of the source, renamed because `to` is reserved in Lean. -/
structure TxData where
  nonce : Option Nat := none
  gasPrice : Option Nat := none
  gasLimit : Option Nat := none
  toAddr : Option (List Nat) := none
  value : Option Nat := none
  data : Option (List Nat) := none
  chainId : Option Nat := none
  maxPriorityFeePerGas : Option Nat := none
  maxFeePerGas : Option Nat := none
  type : Option Nat := none
deriving DecidableEq

/-- A chain/hardfork configuration (the `Common` objects built in
`src/main.js` lines 36 and 42). -/
structure ChainCommon where
  chain : Nat
  hardforkName : String
deriving DecidableEq

/-- An options object passed to a transaction constructor, as a list of
named entries. -/
abbrev TxOptions := List (String × ChainCommon)

/-- The default chain configuration (Mainnet, chain id 1). -/
def defaultCommon : ChainCommon := ⟨1, "default"⟩

/-- Modelled from the library surface of `@ethereumjs/tx`: a transaction
constructor reads its chain configuration from the option key `common` and
falls back to the default (Mainnet) configuration when that key is absent. -/
def readCommonOption (opts : TxOptions) : ChainCommon :=
  (opts.lookup "common").getD defaultCommon

/-- An unsigned legacy transaction: payload plus chain configuration. -/
structure LegacyTx where
  txData : TxData
  common : ChainCommon

/-- An unsigned fee-market (EIP-1559) transaction: payload plus chain
configuration. -/
structure FeeMarketTx where
  txData : TxData
  common : ChainCommon

/-- `Transaction.fromTxData(txData, opts)` of `@ethereumjs/tx` (modelled):
build a legacy transaction, reading the chain configuration from the
`common` option. -/
def Transaction.fromTxData (txData : TxData) (opts : TxOptions) : LegacyTx :=
  ⟨txData, readCommonOption opts⟩

/-- `FeeMarketEIP1559Transaction.fromTxData(txData, opts)` of
`@ethereumjs/tx` (modelled): build a fee-market transaction, reading the
chain configuration from the `common` option. -/
def FeeMarketEIP1559Transaction.fromTxData (txData : TxData) (opts : TxOptions) : FeeMarketTx :=
  ⟨txData, readCommonOption opts⟩

/-- Variant discriminator of a signed transaction. -/
inductive TxVariant
  | legacy
  | feeMarket
deriving DecidableEq

/-- Signing errors (spec §4.5/§7). -/
inductive SignError
  | UnsupportedTransactionType
  | SigningKeyInvalid
deriving DecidableEq

/-- A signed transaction: the original payload, the chain id it was signed
for, and the signature triple `(v, r, s)`. -/
structure SignedTx where
  variant : TxVariant
  payload : TxData
  chainId : Nat
  v : Nat
  r : ZMod secpN
  s : ZMod secpN

/-- A length-prefixed byte-string item of the canonical encoding. -/
def encItem (bs : List Nat) : List Nat := natToBytesBE 4 bs.length ++ bs

/-- Canonical encoding of an optional numeric field (big-endian
minimal-length bytes, spec §6). -/
def encTxNat (v : Option Nat) : List Nat :=
  encItem (match v with
    | none => []
    | some n => (Nat.digits 256 n).reverse)

/-- Canonical encoding of an optional byte-string field. -/
def encTxBytes (v : Option (List Nat)) : List Nat := encItem (v.getD [])

/-- Modelled from the spec (§4.5 step 2, §6): deterministic canonical
pre-signature encoding of a legacy transaction in the order
`nonce, gasPrice, gasLimit, to, value, data, chainId, 0, 0` (EIP-155); the
concrete wire format (RLP) is an external collaborator concern, the signer
only needs a deterministic encoding to hash. -/
def encodeLegacyForSigning (tx : TxData) (chainId : Nat) : List Nat :=
  encTxNat tx.nonce ++ encTxNat tx.gasPrice ++ encTxNat tx.gasLimit ++
  encTxBytes tx.toAddr ++ encTxNat tx.value ++ encTxBytes tx.data ++
  encItem ((Nat.digits 256 chainId).reverse) ++ encItem [] ++ encItem []

/-- Modelled from the spec (§4.5 step 2, §6): deterministic canonical
pre-signature encoding of a fee-market transaction, type byte 2 followed by
`chainId, nonce, maxPriorityFeePerGas, maxFeePerGas, gasLimit, to, value,
data, accessList`. -/
def encodeFeeMarketForSigning (tx : TxData) (chainId : Nat) : List Nat :=
  2 :: (encItem ((Nat.digits 256 chainId).reverse) ++ encTxNat tx.nonce ++
    encTxNat tx.maxPriorityFeePerGas ++ encTxNat tx.maxFeePerGas ++ encTxNat tx.gasLimit ++
    encTxBytes tx.toAddr ++ encTxNat tx.value ++ encTxBytes tx.data ++ encItem [])

/-- The message hash signed and recovered for a transaction (spec §4.5
step 3, §4.6): Keccak-256 of the canonical variant encoding, as a scalar. -/
def signingHash (variant : TxVariant) (payload : TxData) (chainId : Nat) : ZMod secpN :=
  match variant with
  | .legacy => hashToScalar (keccak256 (encodeLegacyForSigning payload chainId))
  | .feeMarket => hashToScalar (keccak256 (encodeFeeMarketForSigning payload chainId))

/-- `tx.sign(privKey)` on a legacy transaction (spec §4.5): hash the
canonical encoding, sign, and attach `v = recoveryBit + chainId·2 + 35`
(EIP-155 legacy convention). -/
def LegacyTx.sign (tx : LegacyTx) (privKey : ZMod secpN) : Except SignError SignedTx :=
  if privKey = 0 then .error .SigningKeyInvalid
  else
    let c := tx.common.chain
    let sg := ecdsaSign privKey (signingHash .legacy tx.txData c)
    .ok ⟨.legacy, tx.txData, c, sg.2.2 + c * 2 + 35, sg.1, sg.2.1⟩

/-- `tx.sign(privKey)` on a fee-market transaction (spec §4.5): hash the
canonical encoding, sign, and attach `v = recoveryBit` directly (0 or 1). -/
def FeeMarketTx.sign (tx : FeeMarketTx) (privKey : ZMod secpN) : Except SignError SignedTx :=
  if privKey = 0 then .error .SigningKeyInvalid
  else
    let c := tx.common.chain
    let sg := ecdsaSign privKey (signingHash .feeMarket tx.txData c)
    .ok ⟨.feeMarket, tx.txData, c, sg.2.2, sg.1, sg.2.1⟩

/-- Translated from `src/main.js` lines 35–39: `signLegacyTx(privKey,
txData)` builds a Mainnet/Istanbul `Common`, passes it under the option key
`txParams`, constructs the legacy transaction and signs it. -/
def signLegacyTx (privKey : ZMod secpN) (txData : TxData) : Except SignError SignedTx :=
  let txParams : ChainCommon := ⟨1, "istanbul"⟩
  let tx := Transaction.fromTxData txData [("txParams", txParams)]
  tx.sign privKey

/-- Translated from `src/main.js` lines 41–45: `signEIP1559Tx(privKey,
txData)` builds a Mainnet/London `Common`, passes it under the option key
`txOptions`, constructs the fee-market transaction and signs it. -/
def signEIP1559Tx (privKey : ZMod secpN) (txData : TxData) : Except SignError SignedTx :=
  let txOptions : ChainCommon := ⟨1, "london"⟩
  let tx := FeeMarketEIP1559Transaction.fromTxData txData [("txOptions", txOptions)]
  tx.sign privKey

/-- Legacy payload shape: `gasPrice` present (spec §4.5 step 1). -/
def legacyShape (tx : TxData) : Bool := tx.gasPrice.isSome

/-- Fee-market payload shape: both fee fields present and the type
discriminator set to 2 (spec §4.5 step 1). -/
def feeMarketShape (tx : TxData) : Bool :=
  tx.maxPriorityFeePerGas.isSome && tx.maxFeePerGas.isSome && decide (tx.type = some 2)

/-- Modelled from the spec (§4.5): the transaction signer — validate the
payload shape against the two variants (step 1), sign with the matching
variant signer, and fail with `UnsupportedTransactionType` when the payload
matches neither variant. -/
def signTx (privKey : ZMod secpN) (tx : TxData) : Except SignError SignedTx :=
  if legacyShape tx then signLegacyTx privKey tx
  else if feeMarketShape tx then signEIP1559Tx privKey tx
  else .error .UnsupportedTransactionType

/-- The recovered signer point of a signed transaction (spec §4.6): rebuild
the signing hash from the stored fields, extract the recovery bit from `v`
per variant convention, and run ECDSA public-key recovery. -/
def SignedTx.senderPoint (st : SignedTx) : ZMod secpN :=
  let z := signingHash st.variant st.payload st.chainId
  let bit := match st.variant with
    | .legacy => st.v - (st.chainId * 2 + 35)
    | .feeMarket => st.v
  ecdsaRecoverPub z st.r st.s bit

/-- `signedTx.getSenderAddress()` (modelled per spec §4.6): the last 20
bytes of the Keccak-256 digest of the recovered 64-byte public key. -/
def SignedTx.getSenderAddress (st : SignedTx) : List Nat :=
  (keccak256 (pubKeyBytes st.senderPoint)).drop 12

/-- Translated from `src/main.js` lines 47–49: `getSignerAddress(signedTx)`
returns `"0x" + signedTx.getSenderAddress().toString('hex')`. -/
def getSignerAddress (st : SignedTx) : String :=
  "0x" ++ String.mk (bytesToHexChars st.getSenderAddress)

/-- The sample legacy transaction of `src/main.js` lines 63–71. -/
def sampleLegacyTransaction : TxData where
  nonce := some 0x00
  gasPrice := some 0x09184e72a000
  gasLimit := some 0x2710
  toAddr := some [0x31, 0xc1, 0xc0, 0xfe, 0xc5, 0x9c, 0xeb, 0x9c, 0xbe, 0x6e, 0xc4, 0x74, 0xc3,
    0x1c, 0x1d, 0xc5, 0xb6, 0x65, 0x55, 0xb6]
  value := some 0x10
  data := some [0x7f, 0x74, 0x65, 0x73, 0x74, 0x32, 0x00, 0x00, 0x00, 0x00, 0x00, 0x00, 0x00,
    0x00, 0x00, 0x00, 0x00, 0x00, 0x00, 0x00, 0x00, 0x00, 0x00, 0x00, 0x00, 0x00, 0x00, 0x00,
    0x00, 0x00, 0x00, 0x00, 0x00, 0x60, 0x00, 0x57]
  chainId := some 3

/-- The sample EIP-1559 transaction of `src/main.js` lines 72–82. -/
def sampleEIP1559Transaction : TxData where
  nonce := some 0x00
  type := some 2
  maxPriorityFeePerGas := some 0x09184e72a000
  maxFeePerGas := some 0x09184e72a000
  gasLimit := some 0x2710
  toAddr := some [0x31, 0xc1, 0xc0, 0xfe, 0xc5, 0x9c, 0xeb, 0x9c, 0xbe, 0x6e, 0xc4, 0x74, 0xc3,
    0x1c, 0x1d, 0xc5, 0xb6, 0x65, 0x55, 0xb6]
  value := some 0x10
  data := some [0x7f, 0x74, 0x65, 0x73, 0x74, 0x32, 0x00, 0x00, 0x00, 0x00, 0x00, 0x00, 0x00,
    0x00, 0x00, 0x00, 0x00, 0x00, 0x00, 0x00, 0x00, 0x00, 0x00, 0x00, 0x00, 0x00, 0x00, 0x00,
    0x00, 0x00, 0x00, 0x00, 0x00, 0x60, 0x00, 0x57]
  chainId := some 3

/-! ### Supporting lemmas for the signing claims -/

theorem readCommonOption_txParams (c : ChainCommon) :
    readCommonOption [("txParams", c)] = defaultCommon := rfl

theorem readCommonOption_txOptions (c : ChainCommon) :
    readCommonOption [("txOptions", c)] = defaultCommon := rfl

theorem signLegacyTx_eq (d : ZMod secpN) (txd : TxData) :
    signLegacyTx d txd = (LegacyTx.mk txd defaultCommon).sign d := rfl

theorem signEIP1559Tx_eq (d : ZMod secpN) (txd : TxData) :
    signEIP1559Tx d txd = (FeeMarketTx.mk txd defaultCommon).sign d := rfl

theorem ethAddress_hex_drop (p : List Nat) :
    "0x" ++ String.mk (bytesToHexChars ((keccak256 p).drop 12)) = deriveEthAddress p := by
  rw [deriveEthAddress_eq p, ← keccak256Hex_drop p]
  rfl

theorem ecdsaSign_bit_le_one (d z : ZMod secpN) : (ecdsaSign d z).2.2 ≤ 1 :=
  pointRecBit_le_one _

theorem legacy_v_sub_cancel (b c : Nat) : b + c * 2 + 35 - (c * 2 + 35) = b := by
  omega

theorem legacySign_map_getSigner (txd : TxData) (cm : ChainCommon) (d : ZMod secpN)
    (hd : d ≠ 0) :
    ((LegacyTx.mk txd cm).sign d).map getSignerAddress
      = .ok (deriveEthAddress (derivePubKey d)) := by
  unfold LegacyTx.sign
  rw [if_neg hd]
  show Except.ok (getSignerAddress ⟨.legacy, txd, cm.chain,
      (ecdsaSign d (signingHash .legacy txd cm.chain)).2.2 + cm.chain * 2 + 35,
      (ecdsaSign d (signingHash .legacy txd cm.chain)).1,
      (ecdsaSign d (signingHash .legacy txd cm.chain)).2.1⟩)
    = Except.ok (deriveEthAddress (derivePubKey d))
  refine congrArg Except.ok ?_
  have hpoint : SignedTx.senderPoint ⟨.legacy, txd, cm.chain,
      (ecdsaSign d (signingHash .legacy txd cm.chain)).2.2 + cm.chain * 2 + 35,
      (ecdsaSign d (signingHash .legacy txd cm.chain)).1,
      (ecdsaSign d (signingHash .legacy txd cm.chain)).2.1⟩ = d * basePointG := by
    show ecdsaRecoverPub (signingHash .legacy txd cm.chain)
        (ecdsaSign d (signingHash .legacy txd cm.chain)).1
        (ecdsaSign d (signingHash .legacy txd cm.chain)).2.1
        ((ecdsaSign d (signingHash .legacy txd cm.chain)).2.2 + cm.chain * 2 + 35
          - (cm.chain * 2 + 35)) = d * basePointG
    rw [legacy_v_sub_cancel]
    exact ecdsaSign_recover d _
  unfold getSignerAddress SignedTx.getSenderAddress
  rw [hpoint]
  exact ethAddress_hex_drop (pubKeyBytes (d * basePointG))

theorem feeMarketSign_map_getSigner (txd : TxData) (cm : ChainCommon) (d : ZMod secpN)
    (hd : d ≠ 0) :
    ((FeeMarketTx.mk txd cm).sign d).map getSignerAddress
      = .ok (deriveEthAddress (derivePubKey d)) := by
  unfold FeeMarketTx.sign
  rw [if_neg hd]
  show Except.ok (getSignerAddress ⟨.feeMarket, txd, cm.chain,
      (ecdsaSign d (signingHash .feeMarket txd cm.chain)).2.2,
      (ecdsaSign d (signingHash .feeMarket txd cm.chain)).1,
      (ecdsaSign d (signingHash .feeMarket txd cm.chain)).2.1⟩)
    = Except.ok (deriveEthAddress (derivePubKey d))
  refine congrArg Except.ok ?_
  have hpoint : SignedTx.senderPoint ⟨.feeMarket, txd, cm.chain,
      (ecdsaSign d (signingHash .feeMarket txd cm.chain)).2.2,
      (ecdsaSign d (signingHash .feeMarket txd cm.chain)).1,
      (ecdsaSign d (signingHash .feeMarket txd cm.chain)).2.1⟩ = d * basePointG :=
    ecdsaSign_recover d _
  unfold getSignerAddress SignedTx.getSenderAddress
  rw [hpoint]
  exact ethAddress_hex_drop (pubKeyBytes (d * basePointG))

/-- C1: for every nonzero private key and every payload matching either
variant shape, recovering the signer address from the signed transaction
yields exactly the address derived from the key's public key:
`getSignerAddress (sign tx key) = deriveEthAddress (derivePubKey key)`. -/
theorem C1_sign_recover_roundtrip (d : ZMod secpN) (tx : TxData) (hd : d ≠ 0)
    (hshape : legacyShape tx = true ∨ feeMarketShape tx = true) :
    (signTx d tx).map getSignerAddress = .ok (deriveEthAddress (derivePubKey d)) := by
  unfold signTx
  by_cases hl : legacyShape tx = true
  · rw [if_pos hl, signLegacyTx_eq]
    exact legacySign_map_getSigner tx defaultCommon d hd
  · rw [if_neg hl, if_pos (hshape.resolve_left hl), signEIP1559Tx_eq]
    exact feeMarketSign_map_getSigner tx defaultCommon d hd

/-- Witness for C1 at private key 1 and the sample legacy transaction of
`src/main.js`. -/
theorem C1_sign_recover_roundtrip_witness :
    (1 : ZMod secpN) ≠ 0 ∧ legacyShape sampleLegacyTransaction = true ∧
    (signTx 1 sampleLegacyTransaction).map getSignerAddress
      = .ok (deriveEthAddress (derivePubKey 1)) :=
  ⟨by decide, rfl,
    C1_sign_recover_roundtrip 1 sampleLegacyTransaction (by decide) (Or.inl rfl)⟩

/-- C3: signing any payload that matches neither variant shape — not the
legacy shape and not the fee-market shape, which in particular covers every
payload missing `gasPrice` and lacking both `maxFeePerGas` and
`maxPriorityFeePerGas` — fails with exactly `UnsupportedTransactionType`,
for every private key. -/
theorem C3_unsupported_transaction_type (d : ZMod secpN) (tx : TxData)
    (h1 : legacyShape tx = false) (h2 : feeMarketShape tx = false) :
    signTx d tx = .error .UnsupportedTransactionType := by
  unfold signTx
  rw [h1, h2]
  rfl

/-- Witness for C3 at the empty payload, which matches neither shape. -/
theorem C3_unsupported_transaction_type_witness :
    legacyShape {} = false ∧ feeMarketShape {} = false ∧
    signTx 1 {} = .error .UnsupportedTransactionType :=
  ⟨rfl, rfl, C3_unsupported_transaction_type 1 {} rfl rfl⟩

/-- The recovery-identifier convention of C5, checked on a signed record:
the signature's recovery bit is 0 or 1, and `v` equals
`recoveryBit + chainId·2 + 35` for a legacy transaction and the recovery bit
directly for a fee-market transaction. -/
def recoveryIdOk (d : ZMod secpN) (st : SignedTx) : Bool :=
  let bit := (ecdsaSign d (signingHash st.variant st.payload st.chainId)).2.2
  decide (bit ≤ 1) &&
    (match st.variant with
     | .legacy => decide (st.v = bit + st.chainId * 2 + 35)
     | .feeMarket => decide (st.v = bit))

theorem legacySign_recoveryIdOk (txd : TxData) (cm : ChainCommon) (d : ZMod secpN)
    (hd : d ≠ 0) :
    ((LegacyTx.mk txd cm).sign d).map (recoveryIdOk d) = .ok true := by
  unfold LegacyTx.sign
  rw [if_neg hd]
  refine congrArg Except.ok ?_
  show (decide ((ecdsaSign d (signingHash .legacy txd cm.chain)).2.2 ≤ 1) &&
    decide ((ecdsaSign d (signingHash .legacy txd cm.chain)).2.2 + cm.chain * 2 + 35
      = (ecdsaSign d (signingHash .legacy txd cm.chain)).2.2 + cm.chain * 2 + 35)) = true
  rw [Bool.and_eq_true]
  exact ⟨decide_eq_true (ecdsaSign_bit_le_one d _), decide_eq_true rfl⟩

theorem feeMarketSign_recoveryIdOk (txd : TxData) (cm : ChainCommon) (d : ZMod secpN)
    (hd : d ≠ 0) :
    ((FeeMarketTx.mk txd cm).sign d).map (recoveryIdOk d) = .ok true := by
  unfold FeeMarketTx.sign
  rw [if_neg hd]
  refine congrArg Except.ok ?_
  show (decide ((ecdsaSign d (signingHash .feeMarket txd cm.chain)).2.2 ≤ 1) &&
    decide ((ecdsaSign d (signingHash .feeMarket txd cm.chain)).2.2
      = (ecdsaSign d (signingHash .feeMarket txd cm.chain)).2.2)) = true
  rw [Bool.and_eq_true]
  exact ⟨decide_eq_true (ecdsaSign_bit_le_one d _), decide_eq_true rfl⟩

/-- C5: every transaction the signer produces carries the variant's recovery
identifier convention: the ECDSA recovery bit is 0 or 1, legacy transactions
get `v = recoveryBit + chainId·2 + 35`, fee-market transactions get
`v = recoveryBit` directly. -/
theorem C5_recovery_identifier (d : ZMod secpN) (tx : TxData) (hd : d ≠ 0)
    (hshape : legacyShape tx = true ∨ feeMarketShape tx = true) :
    (signTx d tx).map (recoveryIdOk d) = .ok true := by
  unfold signTx
  by_cases hl : legacyShape tx = true
  · rw [if_pos hl, signLegacyTx_eq]
    exact legacySign_recoveryIdOk tx defaultCommon d hd
  · rw [if_neg hl, if_pos (hshape.resolve_left hl), signEIP1559Tx_eq]
    exact feeMarketSign_recoveryIdOk tx defaultCommon d hd

/-- Witness for C5 at private key 1 and the sample EIP-1559 transaction of
`src/main.js`. -/
theorem C5_recovery_identifier_witness :
    (1 : ZMod secpN) ≠ 0 ∧ feeMarketShape sampleEIP1559Transaction = true ∧
    (signTx 1 sampleEIP1559Transaction).map (recoveryIdOk 1) = .ok true :=
  ⟨by decide, by decide,
    C5_recovery_identifier 1 sampleEIP1559Transaction (by decide) (Or.inr (by decide))⟩

/-- The signature triple `(v, r, s)` of a signed transaction. -/
def sigTriple (st : SignedTx) : Nat × ZMod secpN × ZMod secpN := (st.v, st.r, st.s)

/-- C8: signing is deterministic.  Both signers are pure functions, so two
invocations on identical inputs are identical by reflexivity; substantively,
the RFC 6979-style nonce makes the signature triple a function of the
private key and message hash alone: payloads with equal canonical encodings
receive identical `(v, r, s)`. -/
theorem C8_signing_deterministic (d : ZMod secpN) (tx1 tx2 : TxData) :
    signLegacyTx d tx1 = signLegacyTx d tx1 ∧
    signEIP1559Tx d tx1 = signEIP1559Tx d tx1 ∧
    (encodeLegacyForSigning tx1 1 = encodeLegacyForSigning tx2 1 →
      (signLegacyTx d tx1).map sigTriple = (signLegacyTx d tx2).map sigTriple) ∧
    (encodeFeeMarketForSigning tx1 1 = encodeFeeMarketForSigning tx2 1 →
      (signEIP1559Tx d tx1).map sigTriple = (signEIP1559Tx d tx2).map sigTriple) := by
  refine ⟨rfl, rfl, ?_, ?_⟩
  · intro henc
    rw [signLegacyTx_eq, signLegacyTx_eq]
    unfold LegacyTx.sign
    by_cases hd : d = 0
    · rw [if_pos hd, if_pos hd]
    · rw [if_neg hd, if_neg hd]
      have hz : signingHash .legacy tx1 defaultCommon.chain
          = signingHash .legacy tx2 defaultCommon.chain := by
        show hashToScalar (keccak256 (encodeLegacyForSigning tx1 1))
          = hashToScalar (keccak256 (encodeLegacyForSigning tx2 1))
        rw [henc]
      show Except.ok (((ecdsaSign d (signingHash .legacy tx1 defaultCommon.chain)).2.2
          + defaultCommon.chain * 2 + 35,
          (ecdsaSign d (signingHash .legacy tx1 defaultCommon.chain)).1,
          (ecdsaSign d (signingHash .legacy tx1 defaultCommon.chain)).2.1)
          : Nat × ZMod secpN × ZMod secpN)
        = Except.ok (((ecdsaSign d (signingHash .legacy tx2 defaultCommon.chain)).2.2
          + defaultCommon.chain * 2 + 35,
          (ecdsaSign d (signingHash .legacy tx2 defaultCommon.chain)).1,
          (ecdsaSign d (signingHash .legacy tx2 defaultCommon.chain)).2.1)
          : Nat × ZMod secpN × ZMod secpN)
      rw [hz]
  · intro henc
    rw [signEIP1559Tx_eq, signEIP1559Tx_eq]
    unfold FeeMarketTx.sign
    by_cases hd : d = 0
    · rw [if_pos hd, if_pos hd]
    · rw [if_neg hd, if_neg hd]
      have hz : signingHash .feeMarket tx1 defaultCommon.chain
          = signingHash .feeMarket tx2 defaultCommon.chain := by
        show hashToScalar (keccak256 (encodeFeeMarketForSigning tx1 1))
          = hashToScalar (keccak256 (encodeFeeMarketForSigning tx2 1))
        rw [henc]
      show Except.ok (((ecdsaSign d (signingHash .feeMarket tx1 defaultCommon.chain)).2.2,
          (ecdsaSign d (signingHash .feeMarket tx1 defaultCommon.chain)).1,
          (ecdsaSign d (signingHash .feeMarket tx1 defaultCommon.chain)).2.1)
          : Nat × ZMod secpN × ZMod secpN)
        = Except.ok (((ecdsaSign d (signingHash .feeMarket tx2 defaultCommon.chain)).2.2,
          (ecdsaSign d (signingHash .feeMarket tx2 defaultCommon.chain)).1,
          (ecdsaSign d (signingHash .feeMarket tx2 defaultCommon.chain)).2.1)
          : Nat × ZMod secpN × ZMod secpN)
      rw [hz]

/-- Witness for C8: the sample legacy transaction signed against itself. -/
theorem C8_signing_deterministic_witness :
    (signLegacyTx 1 sampleLegacyTransaction).map sigTriple
      = (signLegacyTx 1 sampleLegacyTransaction).map sigTriple :=
  (C8_signing_deterministic 1 sampleLegacyTransaction sampleLegacyTransaction).2.2.1 rfl

/-- C10: the chain configurations built in `signLegacyTx` and
`signEIP1559Tx` have no effect — they are passed under the option keys
`txParams` and `txOptions`, neither of which is the `common` key the
constructors read, so each signed result is identical to constructing the
transaction from the payload with no options at all and signing it. -/
theorem C10_misnamed_options_ignored (d : ZMod secpN) (txData : TxData) :
    signLegacyTx d txData = (Transaction.fromTxData txData []).sign d ∧
    signEIP1559Tx d txData = (FeeMarketEIP1559Transaction.fromTxData txData []).sign d :=
  ⟨rfl, rfl⟩

/-! ## Mnemonic validation

`BIP39.validateMnemonic` (used in `src/README.md` lines 51–55) is library
code outside the repository.  Modelled from the spec (§4.1): split the
candidate into words, require a standard word count, require every word to
be in the wordlist, and recompute the checksum — returning `false`, never
throwing, on any failure.  The wordlist and the checksum recomputation are
the standard's fixed artifacts and are taken as parameters; the claim's
properties hold for every choice of them. -/

/-- The whitespace-separated words of a candidate mnemonic. -/
def mnemonicWords (candidate : String) : List String :=
  (splitOnChar ' ' candidate.data).map String.mk

/-- Modelled from the spec (§4.1), standing for `BIP39.validateMnemonic`:
word-count check, wordlist membership and checksum recomputation, as a total
Boolean function (never throws). -/
def validateMnemonic (wordlist : List String) (checksumOk : List String → Bool)
    (candidate : String) : Bool :=
  decide ((mnemonicWords candidate).length = 12 ∨ (mnemonicWords candidate).length = 15 ∨
      (mnemonicWords candidate).length = 18 ∨ (mnemonicWords candidate).length = 21 ∨
      (mnemonicWords candidate).length = 24)
    && (mnemonicWords candidate).all (fun w => wordlist.contains w)
    && checksumOk (mnemonicWords candidate)

/-- C6: `validateMnemonic` returns `false` for every malformed candidate —
wrong word count, any word outside the wordlist, or failing checksum — for
every wordlist and checksum; in particular it returns `false` on
`"not a real mnemonic phrase at all"`.  It never throws: the model is a
total Boolean function, matching the library's catch-all contract. -/
theorem C6_validateMnemonic_rejects (wordlist : List String)
    (checksumOk : List String → Bool) (s : String) :
    (¬ ((mnemonicWords s).length = 12 ∨ (mnemonicWords s).length = 15 ∨
        (mnemonicWords s).length = 18 ∨ (mnemonicWords s).length = 21 ∨
        (mnemonicWords s).length = 24) →
      validateMnemonic wordlist checksumOk s = false) ∧
    ((∃ w ∈ mnemonicWords s, wordlist.contains w = false) →
      validateMnemonic wordlist checksumOk s = false) ∧
    (checksumOk (mnemonicWords s) = false →
      validateMnemonic wordlist checksumOk s = false) ∧
    validateMnemonic wordlist checksumOk "not a real mnemonic phrase at all" = false := by
  refine ⟨?_, ?_, ?_, ?_⟩
  · intro h
    unfold validateMnemonic
    rw [decide_eq_false h, Bool.false_and, Bool.false_and]
  · intro h
    have hall : (mnemonicWords s).all (fun w => wordlist.contains w) = false := by
      rcases h with ⟨w, hw, hnc⟩
      by_contra hne
      have htrue := List.all_eq_true.mp ((Bool.ne_false_iff).mp hne) w hw
      rw [htrue] at hnc
      cases hnc
    unfold validateMnemonic
    rw [hall, Bool.and_false, Bool.false_and]
  · intro h
    unfold validateMnemonic
    rw [h, Bool.and_false]
  · unfold validateMnemonic
    rw [decide_eq_false (by decide), Bool.false_and, Bool.false_and]

/-- Witness for C6: a three-word candidate has an invalid word count and is
rejected for every wordlist and checksum function. -/
theorem C6_validateMnemonic_rejects_witness :
    validateMnemonic [] (fun _ => true) "x y z" = false :=
  (C6_validateMnemonic_rejects [] (fun _ => true) "x y z").1 (by decide)
